import Mathlib

/-!
# Verification of the TL;DR Wikipedia-enrichment block pipeline

Shallow embedding of `src/frontend/index.js`: the summary fetcher
(`getSummariesAsync`) and the batched writer (`updateRecordsInBatchesAsync`).

Modelling conventions:
* a JS value that may be `undefined` is an `Option`;
* the external summarization service (`fetch` + `response.json()`) is an
  oracle `String → PageSummary` from the request URL to the parsed body;
  `PageSummary` has exactly the two fields the code ever reads
  (`sm_api_message`, `sm_api_content`), both optional;
* the React state setter `setInvalidApi` is modelled by threading the
  boolean flag through the loop and returning its final value;
* a JS object literal `{ [SUMMARY_FIELD_NAME]: v }` is a key/value list
  with that single entry;
* the writer's sequential awaited calls are modelled as the ordered list
  of batches submitted to `table.updateRecordsAsync`, in call order.
-/

/-- `const TABLE_NAME = 'Urls'` (src/frontend/index.js line 5). -/
def TABLE_NAME : String := "Urls"

/-- `const URL_FIELD_NAME = 'URL'` (line 6). -/
def URL_FIELD_NAME : String := "URL"

/-- `const SUMMARY_FIELD_NAME = 'Summary'` (line 7). -/
def SUMMARY_FIELD_NAME : String := "Summary"

/-- `const MAX_RECORDS_PER_UPDATE = 50` (line 9). -/
def MAX_RECORDS_PER_UPDATE : Nat := 50

/-- `const API_ENDPOINT = 'https://api.smmry.com/'` (line 11). -/
def API_ENDPOINT : String := "https://api.smmry.com/"

/-- `const CORS_PROXY = 'https://cors-anywhere.herokuapp.com/'` (line 12). -/
def CORS_PROXY : String := "https://cors-anywhere.herokuapp.com/"

/-- A host table row: a stable `id` plus the value
`record.getCellValueAsString(titleField)` reads (the source URL string). -/
structure Record where
  id : String
  url : String
deriving DecidableEq, Repr

/-- The parsed JSON body of one summarization response.  The code reads only
`sm_api_message` and `sm_api_content`; either may be absent (`none`). -/
structure PageSummary where
  sm_api_message : Option String
  sm_api_content : Option String
deriving DecidableEq, Repr

/-- One element pushed onto `recordUpdates`:
`{ id: record.id, fields: { [SUMMARY_FIELD_NAME]: pageSummary.sm_api_content } }`.
The `fields` object literal is modelled as an ordered key/value list. -/
structure FieldUpdate where
  id : String
  fields : List (String × Option String)
deriving DecidableEq, Repr

/-- The request URL built at lines 106-107:
`` `${CORS_PROXY}${API_ENDPOINT}&SM_API_KEY=${apiKey}&SM_LENGTH=${numOfSentences ? numOfSentences : 7}&SM_URL=${url}` ``.
JS string truthiness: `numOfSentences ? _ : _` takes the else-branch exactly
when the string is empty; the number `7` is stringified by the template. -/
def requestUrl (apiKey numOfSentences url : String) : String :=
  CORS_PROXY ++ API_ENDPOINT ++ "&SM_API_KEY=" ++ apiKey ++
    "&SM_LENGTH=" ++ (if numOfSentences = "" then "7" else numOfSentences) ++
    "&SM_URL=" ++ url

/-- The body of the `for (const record of records)` loop of `getSummariesAsync`
(lines 103-124), with the accumulating array `recordUpdates` and the
`invalidApi` flag threaded explicitly.  The JS early `return;` (line 113)
returns `undefined`, modelled as `none`; the flag component is the final
value of the `invalidApi` state. -/
def getSummariesLoop (fetchJson : String → PageSummary) (apiKey numOfSentences : String) :
    List Record → List FieldUpdate → Bool → Option (List FieldUpdate) × Bool
  | [], recordUpdates, invalidApi => (some recordUpdates, invalidApi)
  | record :: rest, recordUpdates, _invalidApi =>
    let pageSummary := fetchJson (requestUrl apiKey numOfSentences record.url)
    if pageSummary.sm_api_message = some "INVALID API KEY" then
      (none, true)
    else
      getSummariesLoop fetchJson apiKey numOfSentences rest
        (recordUpdates ++ [{ id := record.id,
                             fields := [(SUMMARY_FIELD_NAME, pageSummary.sm_api_content)] }])
        false

/-- `getSummariesAsync(table, titleField, records, apiKey, numOfSentences, setInvalidApi)`
(lines 101-127).  The first component is the returned value (`none` for the
early `return;` on an invalid key, otherwise `some recordUpdates`); the second
component is the final state of the `invalidApi` flag, whose initial value is
the `invalidApi` argument. -/
def getSummariesAsync (fetchJson : String → PageSummary) (apiKey numOfSentences : String)
    (records : List Record) (invalidApi : Bool) : Option (List FieldUpdate) × Bool :=
  getSummariesLoop fetchJson apiKey numOfSentences records [] invalidApi

/-- The `while (i < recordUpdates.length)` loop of `updateRecordsInBatchesAsync`
(lines 132-139): result is the ordered list of batches passed to
`table.updateRecordsAsync`, one per awaited call, in call order.
`recordUpdates.slice(i, i + MAX_RECORDS_PER_UPDATE)` is
`(recordUpdates.drop i).take MAX_RECORDS_PER_UPDATE`. -/
def updateRecordsInBatchesLoop (recordUpdates : List FieldUpdate) (i : Nat) :
    List (List FieldUpdate) :=
  if i < recordUpdates.length then
    ((recordUpdates.drop i).take MAX_RECORDS_PER_UPDATE) ::
      updateRecordsInBatchesLoop recordUpdates (i + MAX_RECORDS_PER_UPDATE)
  else []
termination_by recordUpdates.length - i
decreasing_by simp only [MAX_RECORDS_PER_UPDATE]; omega

/-- `updateRecordsInBatchesAsync(table, recordUpdates)` (lines 129-141).
The argument may be `undefined` (when `getSummariesAsync` returned early),
hence an `Option`; `if (recordUpdates)` skips the loop for `undefined`
(`none`) and enters it for any array, including the empty one. -/
def updateRecordsInBatchesAsync : Option (List FieldUpdate) → List (List FieldUpdate)
  | none => []
  | some recordUpdates => updateRecordsInBatchesLoop recordUpdates 0

/-- The `FieldUpdate` built for a record from its response (lines 118-123). -/
def summaryUpdate (fetchJson : String → PageSummary) (apiKey numOfSentences : String)
    (record : Record) : FieldUpdate :=
  { id := record.id,
    fields := [(SUMMARY_FIELD_NAME,
                (fetchJson (requestUrl apiKey numOfSentences record.url)).sm_api_content)] }

/-- Everything of the request URL that precedes the embedded source value. -/
def requestUrlStem (apiKey numOfSentences : String) : String :=
  CORS_PROXY ++ API_ENDPOINT ++ "&SM_API_KEY=" ++ apiKey ++
    "&SM_LENGTH=" ++ (if numOfSentences = "" then "7" else numOfSentences) ++
    "&SM_URL="

/-- Spec-side description of the request URL, following the claim's words:
plain concatenation of the fixed endpoint (the proxied upstream endpoint),
the credential, a sentence-count value equal to the user-supplied value when
that value is a non-empty string and the fixed default `7` otherwise, and the
source value embedded verbatim (no percent-encoding). -/
def specRequestUrl (apiKey numOfSentences url : String) : String :=
  (CORS_PROXY ++ API_ENDPOINT) ++ "&SM_API_KEY=" ++ apiKey ++
    "&SM_LENGTH=" ++ (if numOfSentences ≠ "" then numOfSentences else "7") ++
    "&SM_URL=" ++ url

/-- Chunking of a list into consecutive slices of length `MAX_RECORDS_PER_UPDATE`:
the closed form of the writer's index loop. -/
def chunkList : List FieldUpdate → List (List FieldUpdate)
  | [] => []
  | x :: xs =>
    (x :: xs).take MAX_RECORDS_PER_UPDATE :: chunkList ((x :: xs).drop MAX_RECORDS_PER_UPDATE)
termination_by l => l.length
decreasing_by simp only [MAX_RECORDS_PER_UPDATE, List.length_drop, List.length_cons]; omega

/-! ## Concrete fixtures used to exercise the definitions -/

/-- A response body carrying the invalid-key sentinel. -/
def sentinelResponse : PageSummary :=
  { sm_api_message := some "INVALID API KEY", sm_api_content := none }

/-- A response body with neither `sm_api_message` nor `sm_api_content`. -/
def emptyResponse : PageSummary :=
  { sm_api_message := none, sm_api_content := none }

/-- A summarization service returning the same body for every request. -/
def constFetch (ps : PageSummary) : String → PageSummary := fun _ => ps

/-- The row `{id:"r1", url:"a.com"}` of the spec's worked example. -/
def sampleRecord1 : Record := { id := "r1", url := "a.com" }

/-- The row `{id:"r2", url:"b.com"}` of the spec's worked example. -/
def sampleRecord2 : Record := { id := "r2", url := "b.com" }

/-- The service of the spec's worked example: `"S1"` for `a.com`, `"S2"` for
`b.com` (looked up at the exact request URLs the fetcher builds). -/
def exampleFetch : String → PageSummary := fun u =>
  if u = requestUrl "KEY" "" "a.com" then
    { sm_api_message := none, sm_api_content := some "S1" }
  else if u = requestUrl "KEY" "" "b.com" then
    { sm_api_message := none, sm_api_content := some "S2" }
  else
    { sm_api_message := none, sm_api_content := none }

/-- A sample field update. -/
def sampleUpdate : FieldUpdate :=
  { id := "r1", fields := [(SUMMARY_FIELD_NAME, some "S1")] }

/-- 120 distinct field updates, for the 50/50/20 batching example. -/
def updates120 : List FieldUpdate :=
  (List.range 120).map (fun i => { id := toString i, fields := [] })

/-! ## Helper lemmas about the writer's batching loop -/

/-- The index loop starting at `i` is the chunking of the tail `drop i`. -/
theorem updateRecordsInBatchesLoop_eq_chunkList (recordUpdates : List FieldUpdate) (i : Nat) :
    updateRecordsInBatchesLoop recordUpdates i = chunkList (recordUpdates.drop i) := by
  rw [updateRecordsInBatchesLoop]
  by_cases h : i < recordUpdates.length
  · rw [if_pos h]
    obtain ⟨x, xs, hx⟩ : ∃ x xs, recordUpdates.drop i = x :: xs := by
      rcases hd : recordUpdates.drop i with _ | ⟨x, xs⟩
      · exfalso
        have hlen := congrArg List.length hd
        rw [List.length_drop] at hlen
        simp only [List.length_nil] at hlen
        omega
      · exact ⟨x, xs, rfl⟩
    rw [hx, chunkList, ← hx, List.drop_drop,
      updateRecordsInBatchesLoop_eq_chunkList recordUpdates (i + MAX_RECORDS_PER_UPDATE)]
  · rw [if_neg h]
    rw [List.drop_eq_nil_of_le (by omega), chunkList]
termination_by recordUpdates.length - i
decreasing_by simp only [MAX_RECORDS_PER_UPDATE]; omega

theorem updateRecordsInBatchesAsync_some (recordUpdates : List FieldUpdate) :
    updateRecordsInBatchesAsync (some recordUpdates) = chunkList recordUpdates := by
  rw [updateRecordsInBatchesAsync, updateRecordsInBatchesLoop_eq_chunkList, List.drop_zero]

/-- Concatenating the chunks in order recovers the input list. -/
theorem chunkList_flatten (l : List FieldUpdate) : (chunkList l).flatten = l := by
  rcases l with _ | ⟨x, xs⟩
  · rw [chunkList]; rfl
  · rw [chunkList, List.flatten_cons, chunkList_flatten ((x :: xs).drop MAX_RECORDS_PER_UPDATE),
      List.take_append_drop]
termination_by l.length
decreasing_by simp only [MAX_RECORDS_PER_UPDATE, List.length_drop, List.length_cons]; omega

/-- Every chunk has at most `MAX_RECORDS_PER_UPDATE` elements. -/
theorem chunkList_mem_length (l : List FieldUpdate) :
    ∀ b ∈ chunkList l, b.length ≤ MAX_RECORDS_PER_UPDATE := by
  rcases l with _ | ⟨x, xs⟩
  · intro b hb; rw [chunkList] at hb; simp at hb
  · intro b hb
    rw [chunkList] at hb
    rcases List.mem_cons.mp hb with h | h
    · subst h
      exact List.length_take_le MAX_RECORDS_PER_UPDATE (x :: xs)
    · exact chunkList_mem_length ((x :: xs).drop MAX_RECORDS_PER_UPDATE) b h
termination_by l.length
decreasing_by simp only [MAX_RECORDS_PER_UPDATE, List.length_drop, List.length_cons]; omega

/-- The number of chunks is the length divided by 50, rounded up. -/
theorem chunkList_length (l : List FieldUpdate) :
    (chunkList l).length = (l.length + MAX_RECORDS_PER_UPDATE - 1) / MAX_RECORDS_PER_UPDATE := by
  rcases l with _ | ⟨x, xs⟩
  · rw [chunkList]; simp [MAX_RECORDS_PER_UPDATE]
  · rw [chunkList, List.length_cons,
      chunkList_length ((x :: xs).drop MAX_RECORDS_PER_UPDATE)]
    simp only [MAX_RECORDS_PER_UPDATE, List.length_drop, List.length_cons]
    omega
termination_by l.length
decreasing_by simp only [MAX_RECORDS_PER_UPDATE, List.length_drop, List.length_cons]; omega

/-- A non-empty list of at most 50 elements is a single chunk. -/
theorem chunkList_of_short (l : List FieldUpdate) (h0 : l ≠ [])
    (h : l.length ≤ MAX_RECORDS_PER_UPDATE) : chunkList l = [l] := by
  rcases l with _ | ⟨x, xs⟩
  · exact absurd rfl h0
  · rw [chunkList, List.take_of_length_le h, List.drop_eq_nil_of_le h, chunkList]

/-- Chunk sizes of a 120-element list are 50, 50, 20. -/
theorem chunkList_length120 (l : List FieldUpdate) (h : l.length = 120) :
    (chunkList l).map List.length = [50, 50, 20] := by
  rcases l with _ | ⟨x, xs⟩
  · simp at h
  rw [chunkList]
  have h1 : ((x :: xs).drop MAX_RECORDS_PER_UPDATE).length = 70 := by
    simp only [MAX_RECORDS_PER_UPDATE, List.length_drop]; omega
  rcases hd : (x :: xs).drop MAX_RECORDS_PER_UPDATE with _ | ⟨y, ys⟩
  · rw [hd] at h1; simp at h1
  rw [hd] at h1
  rw [chunkList]
  have h2 : ((y :: ys).drop MAX_RECORDS_PER_UPDATE).length = 20 := by
    simp only [MAX_RECORDS_PER_UPDATE, List.length_drop]; omega
  rcases hd2 : (y :: ys).drop MAX_RECORDS_PER_UPDATE with _ | ⟨z, zs⟩
  · rw [hd2] at h2; simp at h2
  rw [hd2] at h2
  rw [chunkList]
  have h3 : ((z :: zs).drop MAX_RECORDS_PER_UPDATE).length = 0 := by
    simp only [MAX_RECORDS_PER_UPDATE, List.length_drop]; omega
  rcases hd3 : (z :: zs).drop MAX_RECORDS_PER_UPDATE with _ | ⟨w, ws⟩
  · rw [chunkList]
    simp only [List.map_cons, List.map_nil, List.length_take, List.cons.injEq, and_true]
    simp only [MAX_RECORDS_PER_UPDATE]
    omega
  · rw [hd3] at h3; simp at h3

/-! ## Helper lemmas about the fetch loop -/

/-- The accumulator is only ever prepended to the final result: the loop's
outcome on accumulator `acc` is the outcome on `[]` with `acc ++ ·` mapped
over the returned list, and the final flag does not depend on `acc`. -/
theorem getSummariesLoop_acc (fetchJson : String → PageSummary) (apiKey numOfSentences : String)
    (records : List Record) (acc : List FieldUpdate) (invalidApi : Bool) :
    getSummariesLoop fetchJson apiKey numOfSentences records acc invalidApi =
      ((getSummariesLoop fetchJson apiKey numOfSentences records [] invalidApi).1.map (acc ++ ·),
       (getSummariesLoop fetchJson apiKey numOfSentences records [] invalidApi).2) := by
  induction records generalizing acc invalidApi with
  | nil => simp [getSummariesLoop]
  | cons r rs ih =>
    simp only [getSummariesLoop]
    by_cases h :
        (fetchJson (requestUrl apiKey numOfSentences r.url)).sm_api_message =
          some "INVALID API KEY"
    · simp [h]
    · simp only [if_neg h, List.nil_append]
      set u : FieldUpdate :=
        { id := r.id,
          fields := [(SUMMARY_FIELD_NAME,
            (fetchJson (requestUrl apiKey numOfSentences r.url)).sm_api_content)] }
      rw [ih (acc ++ [u]) false, ih [u] false]
      rcases (getSummariesLoop fetchJson apiKey numOfSentences rs [] false).1 with _ | us
      · simp
      · simp [List.append_assoc]

/-- When no response carries the sentinel, the loop appends one update per
record, in order, and ends with the flag cleared (unless there were no
records at all, in which case the flag is untouched). -/
theorem getSummariesLoop_success (fetchJson : String → PageSummary)
    (apiKey numOfSentences : String) (records : List Record) (acc : List FieldUpdate)
    (invalidApi : Bool)
    (h : ∀ r ∈ records,
      (fetchJson (requestUrl apiKey numOfSentences r.url)).sm_api_message ≠
        some "INVALID API KEY") :
    getSummariesLoop fetchJson apiKey numOfSentences records acc invalidApi =
      (some (acc ++ records.map (summaryUpdate fetchJson apiKey numOfSentences)),
       if records.isEmpty then invalidApi else false) := by
  induction records generalizing acc invalidApi with
  | nil => simp [getSummariesLoop]
  | cons r rs ih =>
    simp only [getSummariesLoop]
    rw [if_neg (h r (List.mem_cons_self r rs))]
    rw [ih _ _ (fun x hx => h x (List.mem_cons_of_mem r hx))]
    simp [summaryUpdate, List.append_assoc]

/-- When the first sentinel response occurs at some position, the loop
returns `(undefined, true)` no matter what came before or after. -/
theorem getSummariesLoop_sentinel (fetchJson : String → PageSummary)
    (apiKey numOfSentences : String) (pre : List Record) (r : Record) (post : List Record)
    (acc : List FieldUpdate) (invalidApi : Bool)
    (hpre : ∀ p ∈ pre,
      (fetchJson (requestUrl apiKey numOfSentences p.url)).sm_api_message ≠
        some "INVALID API KEY")
    (hr : (fetchJson (requestUrl apiKey numOfSentences r.url)).sm_api_message =
      some "INVALID API KEY") :
    getSummariesLoop fetchJson apiKey numOfSentences (pre ++ r :: post) acc invalidApi =
      (none, true) := by
  induction pre generalizing acc invalidApi with
  | nil => simp [getSummariesLoop, hr]
  | cons p pre' ih =>
    simp only [List.cons_append, getSummariesLoop]
    rw [if_neg (hpre p (List.mem_cons_self p pre'))]
    exact ih _ _ (fun x hx => hpre x (List.mem_cons_of_mem p hx))

/-! ## Claim theorems -/

/-- C1: if the summarization response for the n-th row carries
`sm_api_message = "INVALID API KEY"` (and rows before it do not), the fetcher
returns no updates at all (`undefined`, discarding the updates accumulated
for the earlier rows), processes no further rows (the outcome is the same as
if the row sequence ended at the offending row), and the writer, fed that
result, issues zero write calls. -/
theorem getSummariesAsync_invalidKey_allOrNothing
    (fetchJson : String → PageSummary) (apiKey numOfSentences : String)
    (pre post : List Record) (r : Record) (invalidApi : Bool)
    (hpre : ∀ p ∈ pre,
      (fetchJson (requestUrl apiKey numOfSentences p.url)).sm_api_message ≠
        some "INVALID API KEY")
    (hr : (fetchJson (requestUrl apiKey numOfSentences r.url)).sm_api_message =
      some "INVALID API KEY") :
    (getSummariesAsync fetchJson apiKey numOfSentences (pre ++ r :: post) invalidApi).1 =
      none ∧
    getSummariesAsync fetchJson apiKey numOfSentences (pre ++ r :: post) invalidApi =
      getSummariesAsync fetchJson apiKey numOfSentences (pre ++ [r]) invalidApi ∧
    updateRecordsInBatchesAsync
      (getSummariesAsync fetchJson apiKey numOfSentences (pre ++ r :: post) invalidApi).1 =
      [] := by
  have h1 := getSummariesLoop_sentinel fetchJson apiKey numOfSentences pre r post
    [] invalidApi hpre hr
  have h2 := getSummariesLoop_sentinel fetchJson apiKey numOfSentences pre r []
    [] invalidApi hpre hr
  rw [getSummariesAsync, getSummariesAsync, h1, h2]
  exact ⟨rfl, rfl, rfl⟩

/-- Witness for C1: a two-row run whose first response already carries the
sentinel returns no updates and leads to zero write calls. -/
theorem getSummariesAsync_invalidKey_allOrNothing_witness :
    (getSummariesAsync (constFetch sentinelResponse) "KEY" ""
      ([] ++ sampleRecord1 :: [sampleRecord2]) false).1 = none ∧
    getSummariesAsync (constFetch sentinelResponse) "KEY" ""
      ([] ++ sampleRecord1 :: [sampleRecord2]) false =
      getSummariesAsync (constFetch sentinelResponse) "KEY" "" ([] ++ [sampleRecord1]) false ∧
    updateRecordsInBatchesAsync
      (getSummariesAsync (constFetch sentinelResponse) "KEY" ""
        ([] ++ sampleRecord1 :: [sampleRecord2]) false).1 = [] :=
  getSummariesAsync_invalidKey_allOrNothing (constFetch sentinelResponse) "KEY" ""
    [] [sampleRecord2] sampleRecord1 false (by simp) (by rfl)

/-- C2: on a list of L updates the writer issues exactly ⌈L/50⌉ calls, each
batch has at most 50 updates, the batches concatenated in call order give
back the input list (contiguous, order-preserving slices), and a 120-update
input yields three calls of sizes 50, 50, 20 in that order.  Call k+1 being
issued only after call k resolves is the sequential-await structure of the
loop, represented here by the order of the returned call list. -/
theorem updateRecordsInBatchesAsync_batches_spec (recordUpdates : List FieldUpdate) :
    (updateRecordsInBatchesAsync (some recordUpdates)).length =
      (recordUpdates.length + MAX_RECORDS_PER_UPDATE - 1) / MAX_RECORDS_PER_UPDATE ∧
    (∀ b ∈ updateRecordsInBatchesAsync (some recordUpdates),
      b.length ≤ MAX_RECORDS_PER_UPDATE) ∧
    (updateRecordsInBatchesAsync (some recordUpdates)).flatten = recordUpdates ∧
    (recordUpdates.length = 120 →
      (updateRecordsInBatchesAsync (some recordUpdates)).map List.length = [50, 50, 20]) := by
  rw [updateRecordsInBatchesAsync_some]
  exact ⟨chunkList_length recordUpdates, chunkList_mem_length recordUpdates,
    chunkList_flatten recordUpdates, chunkList_length120 recordUpdates⟩

/-- Witness for C2: 120 concrete updates are written in three calls of sizes
50, 50 and 20. -/
theorem updateRecordsInBatchesAsync_batches_spec_witness :
    (updateRecordsInBatchesAsync (some updates120)).map List.length = [50, 50, 20] :=
  (updateRecordsInBatchesAsync_batches_spec updates120).2.2.2 (by simp [updates120])

/-- C3: when no response carries the sentinel, the fetcher returns exactly one
update per row, in the rows' original order, each of the form
`{ id := row.id, fields := { Summary := response.sm_api_content } }`. -/
theorem getSummariesAsync_success_updates
    (fetchJson : String → PageSummary) (apiKey numOfSentences : String)
    (records : List Record) (invalidApi : Bool)
    (h : ∀ r ∈ records,
      (fetchJson (requestUrl apiKey numOfSentences r.url)).sm_api_message ≠
        some "INVALID API KEY") :
    (getSummariesAsync fetchJson apiKey numOfSentences records invalidApi).1 =
      some (records.map (fun r =>
        { id := r.id,
          fields := [(SUMMARY_FIELD_NAME,
            (fetchJson (requestUrl apiKey numOfSentences r.url)).sm_api_content)] })) := by
  rw [getSummariesAsync,
    getSummariesLoop_success fetchJson apiKey numOfSentences records [] invalidApi h]
  simp [summaryUpdate]

/-- Witness for C3: the spec's worked example, rows r1/r2 with summaries
S1/S2, yields the two updates in that order. -/
theorem getSummariesAsync_success_updates_witness :
    (getSummariesAsync exampleFetch "KEY" "" [sampleRecord1, sampleRecord2] false).1 =
      some [{ id := "r1", fields := [(SUMMARY_FIELD_NAME, some "S1")] },
            { id := "r2", fields := [(SUMMARY_FIELD_NAME, some "S2")] }] := by
  rw [getSummariesAsync_success_updates exampleFetch "KEY" ""
    [sampleRecord1, sampleRecord2] false (by decide)]
  decide

/-- Counterexample to C4 as stated: the empty update list has length ≤ 50,
yet the writer issues zero calls, not exactly one. -/
theorem updateRecordsInBatchesAsync_empty_not_one_call :
    ([] : List FieldUpdate).length ≤ MAX_RECORDS_PER_UPDATE ∧
    updateRecordsInBatchesAsync (some ([] : List FieldUpdate)) = [] ∧
    (updateRecordsInBatchesAsync (some ([] : List FieldUpdate))).length ≠ 1 := by
  have h : updateRecordsInBatchesAsync (some ([] : List FieldUpdate)) = [] := by
    rw [updateRecordsInBatchesAsync_some, chunkList]
  refine ⟨by simp [MAX_RECORDS_PER_UPDATE], h, ?_⟩
  rw [h]
  simp

/-- C4 (amended): for every NON-EMPTY sequence of at most 50 updates, the
writer issues exactly one call containing all the updates in input order. -/
theorem updateRecordsInBatchesAsync_single_batch (recordUpdates : List FieldUpdate)
    (h0 : recordUpdates ≠ []) (h : recordUpdates.length ≤ MAX_RECORDS_PER_UPDATE) :
    updateRecordsInBatchesAsync (some recordUpdates) = [recordUpdates] := by
  rw [updateRecordsInBatchesAsync_some]
  exact chunkList_of_short recordUpdates h0 h

/-- Witness for the amended C4: a one-element list is written in a single
call containing exactly that element. -/
theorem updateRecordsInBatchesAsync_single_batch_witness :
    updateRecordsInBatchesAsync (some [sampleUpdate]) = [[sampleUpdate]] :=
  updateRecordsInBatchesAsync_single_batch [sampleUpdate] (by simp)
    (by simp [MAX_RECORDS_PER_UPDATE])

/-- C5: on zero rows the fetcher returns the empty update list (and leaves the
flag untouched); on an absent (`undefined`) input, and likewise on an empty
one, the writer issues zero write calls. -/
theorem empty_input_no_calls (fetchJson : String → PageSummary)
    (apiKey numOfSentences : String) (invalidApi : Bool) :
    getSummariesAsync fetchJson apiKey numOfSentences [] invalidApi =
      (some [], invalidApi) ∧
    updateRecordsInBatchesAsync none = [] ∧
    updateRecordsInBatchesAsync (some ([] : List FieldUpdate)) = [] := by
  refine ⟨rfl, rfl, ?_⟩
  rw [updateRecordsInBatchesAsync_some, chunkList]

/-- C6: for every row the request URL is the plain concatenation of the fixed
(proxied) endpoint, the credential, the sentence-count value (the
user-supplied string when non-empty, the default `7` otherwise) and the
source value embedded verbatim with no percent-encoding; and the fetcher
consults the service exactly at that URL (its outcome on a row depends on
the service only through that URL's response). -/
theorem requestUrl_spec (apiKey numOfSentences url : String) :
    requestUrl apiKey numOfSentences url = specRequestUrl apiKey numOfSentences url ∧
    requestUrl apiKey numOfSentences url = requestUrlStem apiKey numOfSentences ++ url ∧
    (∀ (f g : String → PageSummary) (record : Record) (invalidApi : Bool),
      f (requestUrl apiKey numOfSentences record.url) =
        g (requestUrl apiKey numOfSentences record.url) →
      getSummariesAsync f apiKey numOfSentences [record] invalidApi =
        getSummariesAsync g apiKey numOfSentences [record] invalidApi) := by
  refine ⟨?_, ?_, ?_⟩
  · by_cases h : numOfSentences = ""
    · simp [requestUrl, specRequestUrl, h, String.append_assoc]
    · simp [requestUrl, specRequestUrl, h, String.append_assoc]
  · simp [requestUrl, requestUrlStem, String.append_assoc]
  · intro f g record invalidApi hfg
    simp only [getSummariesAsync, getSummariesLoop]
    rw [hfg]

/-- Witness for C6 at a concrete key and row. -/
theorem requestUrl_spec_witness :
    requestUrl "KEY" "" "a.com" = specRequestUrl "KEY" "" "a.com" ∧
    getSummariesAsync (constFetch emptyResponse) "KEY" "" [sampleRecord1] false =
      getSummariesAsync (constFetch emptyResponse) "KEY" "" [sampleRecord1] false :=
  ⟨(requestUrl_spec "KEY" "" "a.com").1,
   (requestUrl_spec "KEY" "" "a.com").2.2 (constFetch emptyResponse)
     (constFetch emptyResponse) sampleRecord1 false rfl⟩

/-- Splitting off the first element of a list satisfying `P`. -/
theorem exists_first_split {α : Type} (P : α → Prop) (l : List α)
    (h : ∃ r ∈ l, P r) :
    ∃ pre r post, l = pre ++ r :: post ∧ (∀ p ∈ pre, ¬ P p) ∧ P r := by
  induction l with
  | nil => simp at h
  | cons x xs ih =>
    by_cases hx : P x
    · exact ⟨[], x, xs, rfl, by simp, hx⟩
    · have hxs : ∃ r ∈ xs, P r := by
        rcases h with ⟨r, hr, hPr⟩
        rcases List.mem_cons.mp hr with rfl | hmem
        · exact absurd hPr hx
        · exact ⟨r, hmem, hPr⟩
      rcases ih hxs with ⟨pre, r, post, heq, hpre, hPr⟩
      refine ⟨x :: pre, r, post, by rw [heq]; rfl, ?_, hPr⟩
      intro p hp
      rcases List.mem_cons.mp hp with rfl | hmem
      · exact hx
      · exact hpre p hmem

/-- C7: on a non-empty run, every non-sentinel response clears the flag (so a
fully successful run ends with the flag `false`), a first sentinel response
sets it to `true` and halts the run with no updates, and after the run the
flag is `true` exactly when the run was halted by a sentinel response — i.e.
when the last inspected response carried it. -/
theorem invalidApi_flag_spec (fetchJson : String → PageSummary)
    (apiKey numOfSentences : String) (records : List Record) (invalidApi : Bool)
    (h0 : records ≠ []) :
    ((∀ r ∈ records,
        (fetchJson (requestUrl apiKey numOfSentences r.url)).sm_api_message ≠
          some "INVALID API KEY") →
      (getSummariesAsync fetchJson apiKey numOfSentences records invalidApi).2 = false) ∧
    (∀ pre r post, records = pre ++ r :: post →
      (∀ p ∈ pre,
        (fetchJson (requestUrl apiKey numOfSentences p.url)).sm_api_message ≠
          some "INVALID API KEY") →
      (fetchJson (requestUrl apiKey numOfSentences r.url)).sm_api_message =
        some "INVALID API KEY" →
      getSummariesAsync fetchJson apiKey numOfSentences records invalidApi = (none, true)) ∧
    ((getSummariesAsync fetchJson apiKey numOfSentences records invalidApi).2 = true ↔
     (getSummariesAsync fetchJson apiKey numOfSentences records invalidApi).1 = none) := by
  have hie : records.isEmpty = false := by
    rcases records with _ | ⟨a, as⟩
    · exact absurd rfl h0
    · rfl
  refine ⟨?_, ?_, ?_⟩
  · intro hall
    rw [getSummariesAsync,
      getSummariesLoop_success fetchJson apiKey numOfSentences records [] invalidApi hall]
    simp [hie]
  · intro pre r post heq hpre hr
    subst heq
    rw [getSummariesAsync]
    exact getSummariesLoop_sentinel fetchJson apiKey numOfSentences pre r post
      [] invalidApi hpre hr
  · by_cases hall : ∀ r ∈ records,
        (fetchJson (requestUrl apiKey numOfSentences r.url)).sm_api_message ≠
          some "INVALID API KEY"
    · rw [getSummariesAsync,
        getSummariesLoop_success fetchJson apiKey numOfSentences records [] invalidApi hall]
      simp [hie]
    · push_neg at hall
      rcases exists_first_split
        (fun rec =>
          (fetchJson (requestUrl apiKey numOfSentences rec.url)).sm_api_message =
            some "INVALID API KEY")
        records hall with ⟨pre, r, post, heq, hpre, hr⟩
      subst heq
      rw [getSummariesAsync,
        getSummariesLoop_sentinel fetchJson apiKey numOfSentences pre r post
          [] invalidApi hpre hr]
      simp

/-- Witness for C7: a one-row run with a sentinel-free response leaves the
flag `false` and returns a (non-`undefined`) update list. -/
theorem invalidApi_flag_spec_witness :
    ((getSummariesAsync (constFetch emptyResponse) "KEY" "" [sampleRecord1] false).2 = true ↔
     (getSummariesAsync (constFetch emptyResponse) "KEY" "" [sampleRecord1] false).1 = none) :=
  (invalidApi_flag_spec (constFetch emptyResponse) "KEY" "" [sampleRecord1] false
    (by simp)).2.2

/-- Every update produced by the fetch loop writes the summary field and
nothing else, provided the accumulator already does. -/
theorem getSummariesLoop_only_summary (fetchJson : String → PageSummary)
    (apiKey numOfSentences : String) (records : List Record) (acc : List FieldUpdate)
    (invalidApi : Bool) (us : List FieldUpdate)
    (hacc : ∀ u ∈ acc, u.fields.map Prod.fst = [SUMMARY_FIELD_NAME])
    (h : (getSummariesLoop fetchJson apiKey numOfSentences records acc invalidApi).1 =
      some us) :
    ∀ u ∈ us, u.fields.map Prod.fst = [SUMMARY_FIELD_NAME] := by
  induction records generalizing acc invalidApi with
  | nil =>
    simp only [getSummariesLoop, Option.some.injEq] at h
    subst h
    exact hacc
  | cons r rs ih =>
    simp only [getSummariesLoop] at h
    by_cases hs : (fetchJson (requestUrl apiKey numOfSentences r.url)).sm_api_message =
        some "INVALID API KEY"
    · rw [if_pos hs] at h
      simp at h
    · rw [if_neg hs] at h
      refine ih _ false ?_ h
      intro u hu
      rcases List.mem_append.mp hu with h1 | h1
      · exact hacc u h1
      · simp only [List.mem_singleton] at h1
        subst h1
        simp

/-- C8: every `FieldUpdate` the fetcher produces has a `fields` mapping with
exactly one key, the summary field name; no other field of any row is ever
written. -/
theorem fieldUpdate_only_summary_field (fetchJson : String → PageSummary)
    (apiKey numOfSentences : String) (records : List Record) (invalidApi : Bool)
    (us : List FieldUpdate)
    (h : (getSummariesAsync fetchJson apiKey numOfSentences records invalidApi).1 = some us) :
    ∀ u ∈ us, u.fields.map Prod.fst = [SUMMARY_FIELD_NAME] :=
  getSummariesLoop_only_summary fetchJson apiKey numOfSentences records [] invalidApi us
    (by simp) h

/-- Witness for C8: the update produced for the sample row has exactly the
key `"Summary"`. -/
theorem fieldUpdate_only_summary_field_witness :
    sampleUpdate.fields.map Prod.fst = [SUMMARY_FIELD_NAME] :=
  fieldUpdate_only_summary_field exampleFetch "KEY" "" [sampleRecord1] false [sampleUpdate]
    (by decide) sampleUpdate (by decide)

/-- C9: a response without the sentinel and without an `sm_api_content` field
does not make the fetcher fail or skip the row: the row's update is still
appended, with the absent (`undefined`) content as the summary value, and
processing continues with the remaining rows. -/
theorem missing_content_still_appended (fetchJson : String → PageSummary)
    (apiKey numOfSentences : String) (record : Record) (rest : List Record)
    (invalidApi : Bool)
    (hmsg : (fetchJson (requestUrl apiKey numOfSentences record.url)).sm_api_message ≠
      some "INVALID API KEY")
    (hcontent : (fetchJson (requestUrl apiKey numOfSentences record.url)).sm_api_content =
      none) :
    (getSummariesAsync fetchJson apiKey numOfSentences (record :: rest) invalidApi).1 =
      ((getSummariesAsync fetchJson apiKey numOfSentences rest false).1).map
        (fun us =>
          { id := record.id, fields := [(SUMMARY_FIELD_NAME, (none : Option String))] }
            :: us) := by
  simp only [getSummariesAsync, getSummariesLoop]
  rw [if_neg hmsg, hcontent, List.nil_append, getSummariesLoop_acc]
  rcases (getSummariesLoop fetchJson apiKey numOfSentences rest [] false).1 with _ | us
  · simp
  · simp

/-- Witness for C9: a content-free response on the sample row still yields an
update, with `none` as the summary value. -/
theorem missing_content_still_appended_witness :
    (getSummariesAsync (constFetch emptyResponse) "KEY" "" [sampleRecord1] false).1 =
      some [{ id := "r1", fields := [(SUMMARY_FIELD_NAME, (none : Option String))] }] := by
  rw [missing_content_still_appended (constFetch emptyResponse) "KEY" "" sampleRecord1 []
    false (by decide) (by decide)]
  decide

/-- C10: the writer's loop terminates on every finite input (the model is a
total function), performing exactly ⌈L/50⌉ iterations — one write call per
iteration — for an input of length L. -/
theorem updateRecordsInBatchesAsync_call_count (recordUpdates : List FieldUpdate) :
    (updateRecordsInBatchesAsync (some recordUpdates)).length =
      (recordUpdates.length + MAX_RECORDS_PER_UPDATE - 1) / MAX_RECORDS_PER_UPDATE := by
  rw [updateRecordsInBatchesAsync_some]
  exact chunkList_length recordUpdates
